import Mathlib

/-!
Verification of the BIP371 Taproot PSBT helpers (`ts_src/psbt/bip371.ts`).

The TypeScript module is shallowly embedded below.  Byte strings
(`Uint8Array`) become `List Nat`; a JavaScript value that may be
`undefined` becomes an `Option`; functions that can `throw` return
`Except Err`.  The external collaborators of the module (tagged hashes,
the taproot output-script builder, script inspection, the witness-stack
encoder and the P2TR script predicate) are opaque to the module and are
passed as a record of functions (`Prims`).
-/

set_option maxRecDepth 8000

namespace Bip371

/-- Byte strings (`Uint8Array`) are modelled as lists of naturals. -/
abbrev Bytes := List Nat

/-- Error kinds thrown by the module.  Each constructor stands for one
distinct `Error` message of the TypeScript source; interpolated data
(such as the action name or the input index) is carried as an argument. -/
inductive Err
  /-- Message `Cannot convert taptree to tapleaf list. Expecting a tapree structure.`. -/
  | notATree
  /-- Message `Max taptree depth exceeded.`. -/
  | depthExceeded
  /-- Message `No room left to insert tapleaf in tree`. -/
  | noRoom
  /-- Message `Invalid arguments for Psbt.(action). Cannot use both taproot and non-taproot fields.`. -/
  | mixedFields (action : String)
  /-- Message `Invalid arguments for Psbt.(action). Tapleaf not part of taptree.`. -/
  | leafNotInTree (action : String)
  /-- Message `Can not finalize taproot input #(idx). No tapleaf script signature provided.`. -/
  | noScriptSig (inputIndex : Nat)
  /-- Message `Can not finalize taproot input #(idx). Signature for tapleaf script not found.`. -/
  | noMatchingLeaf (inputIndex : Nat)
  /-- Message `Error adding output. Script or address mismatch.`. -/
  | scriptMismatch
deriving DecidableEq, Repr

deriving instance DecidableEq for Except

/-- The `PartialTaptree` type of the source: a binary tree whose leaves
carry a script and an optional leaf version, and whose branch slots may
still be `undefined` (constructor `empty`).  A full `Taptree` (the
`Taptree` type of `../types.js`) is a `PTaptree` without `empty` nodes;
see `isTaptree`. -/
inductive PTaptree
  | empty
  | leaf (output : Bytes) (version : Option Nat)
  | branch (l r : PTaptree)
deriving DecidableEq, Repr

/-- The JavaScript expression `tree && tree[0]`: the left child of a
branch, `undefined` when the tree is `undefined` or a leaf object. -/
def PTaptree.left : PTaptree → PTaptree
  | .branch l _ => l
  | _ => .empty

/-- The JavaScript expression `tree && tree[1]`. -/
def PTaptree.right : PTaptree → PTaptree
  | .branch _ r => r
  | _ => .empty

/-- Modelled from the spec: the duck-typed `isTapleaf` check of
`../types.js` (not part of the sources given), which holds exactly for
leaf objects (spec section 3: a TapTree is "either a `ScriptLeaf` or a
pair"). -/
def isTapleafM : PTaptree → Bool
  | .leaf _ _ => true
  | _ => false

/-- Modelled from the spec: the `isTaptree` shape predicate of
`../types.js` (not part of the sources given).  Following spec section 3,
a value is a TapTree when it is a leaf or a pair of TapTrees; an
`undefined` slot is not a TapTree. -/
def isTaptree : PTaptree → Bool
  | .empty => false
  | .leaf _ _ => true
  | .branch l r => isTaptree l && isTaptree r

/-- One element of the BIP371 flat leaf list (`TapLeaf` of `bip174`). -/
structure TapLeaf where
  depth : Nat
  leafVersion : Nat
  script : Bytes
deriving DecidableEq, Repr

/-- `MAX_TAPTREE_DEPTH` from `../payments/bip341.js`. -/
def MAX_TAPTREE_DEPTH : Nat := 128

/-- `LEAF_VERSION_TAPSCRIPT` (0xc0) from `../payments/bip341.js`. -/
def LEAF_VERSION_TAPSCRIPT : Nat := 192

/-- The JavaScript expression `v || d` for an optional number `v`:
`undefined` and `0` are falsy and give the default. -/
def jsOrD (v : Option Nat) (d : Nat) : Nat :=
  match v with
  | none => d
  | some n => if n = 0 then d else n

/-- The recursive worker `_tapTreeToList(tree, leaves, depth)`.  The
mutable accumulator array `leaves` is threaded explicitly; pushing onto
it becomes appending.  The source guards each recursive call with the
truthiness of the child (`if (tree[0]) ...`), so the `empty` arm (whose
TypeScript body returns a fresh `[]`, discarding the accumulator) is
never reached from a guarded call. -/
def tapTreeToListAux : PTaptree → List TapLeaf → Nat → Except Err (List TapLeaf)
  | tree, leaves, depth =>
    if depth > MAX_TAPTREE_DEPTH then .error .depthExceeded
    else
      match tree with
      | .empty => .ok []
      | .leaf s v => .ok (leaves ++ [⟨depth, jsOrD v LEAF_VERSION_TAPSCRIPT, s⟩])
      | .branch l r => do
          let acc1 ← if l = .empty then pure leaves else tapTreeToListAux l leaves (depth + 1)
          let acc2 ← if r = .empty then pure acc1 else tapTreeToListAux r acc1 (depth + 1)
          pure acc2

/-- `tapTreeToList(tree)`: checks the taptree shape, then runs the
depth-first traversal. -/
def tapTreeToList (tree : PTaptree) : Except Err (List TapLeaf) :=
  if isTaptree tree then tapTreeToListAux tree [] 0 else .error .notATree

/-- The recursion of `instertLeafInTree(leaf, tree, depth)` [sic], made
structural on a fuel argument.  The wrapper `instertLeafInTree` always
calls it with `fuel = 129 - depth`, so `fuel = 0` holds exactly when the
source's entry check `depth > MAX_TAPTREE_DEPTH` fires, and the
invariant is preserved by the recursive calls (`depth + 1`, `fuel - 1`).
`.ok none` is the source's `return;` (no room); `.ok (some t)` is a
successful insertion. -/
def instertLeafInTreeAux (lf : TapLeaf) : Nat → PTaptree → Nat → Except Err (Option PTaptree)
  | 0, _, _ => .error .depthExceeded
  | fuel + 1, tree, depth =>
    if lf.depth = depth then
      match tree with
      | .empty => .ok (some (.leaf lf.script (some lf.leafVersion)))
      | _ => .ok none
    else if isTapleafM tree then .ok none
    else
      match instertLeafInTreeAux lf fuel tree.left (depth + 1) with
      | .error e => .error e
      | .ok (some ls) => .ok (some (.branch ls tree.right))
      | .ok none =>
        match instertLeafInTreeAux lf fuel tree.right (depth + 1) with
        | .error e => .error e
        | .ok (some rs) => .ok (some (.branch tree.left rs))
        | .ok none => .ok none

/-- `instertLeafInTree(leaf, tree, depth)` of the source. -/
def instertLeafInTree (lf : TapLeaf) (tree : PTaptree) (depth : Nat) : Except Err (Option PTaptree) :=
  instertLeafInTreeAux lf (129 - depth) tree depth

/-- The loop of `instertLeavesInTree(leaves)`: fold each leaf into the
growing tree; a `undefined` result (`.ok none`) throws `No room left to
insert tapleaf in tree`. -/
def instertLeavesInTreeGo : List TapLeaf → PTaptree → Except Err PTaptree
  | [], tree => .ok tree
  | lf :: rest, tree =>
    match instertLeafInTree lf tree 0 with
    | .error e => .error e
    | .ok none => .error .noRoom
    | .ok (some t) => instertLeavesInTreeGo rest t

/-- `instertLeavesInTree(leaves)` [sic]: the tree variable starts as
`undefined` (`.empty`).  Note the source performs no final completeness
check: whatever tree the loop ends with is returned, empty slots
included, and an empty list yields `undefined` itself. -/
def instertLeavesInTree (leaves : List TapLeaf) : Except Err PTaptree :=
  instertLeavesInTreeGo leaves .empty

/-- `tapTreeFromList(leaves = [])`: a solitary leaf of depth 0 is
returned directly; everything else goes through the insertion loop. -/
def tapTreeFromList (leaves : List TapLeaf) : Except Err PTaptree :=
  match leaves with
  | [lf] =>
    if lf.depth = 0 then .ok (.leaf lf.script (some lf.leafVersion))
    else instertLeavesInTree leaves
  | _ => instertLeavesInTree leaves

/-- Some step of the sequential insertion of the leaves (in list order,
into the growing tree starting from `tree`) finds no room: the spec's
trigger for `MalformedTapTree`.  A depth failure is not a no-room
signal. -/
def someInsertionNoRoom : List TapLeaf → PTaptree → Bool
  | [], _ => false
  | lf :: rest, tree =>
    match instertLeafInTree lf tree 0 with
    | .error _ => false
    | .ok none => true
    | .ok (some t) => someInsertionNoRoom rest t

/-- Depth-first leaf list of a tree (left before right), as a total
function: the mathematical image of `_tapTreeToList` when no depth error
occurs. -/
def dfsP : PTaptree → Nat → List TapLeaf
  | .empty, _ => []
  | .leaf s v, d => [⟨d, jsOrD v LEAF_VERSION_TAPSCRIPT, s⟩]
  | .branch l r, d => dfsP l (d + 1) ++ dfsP r (d + 1)

/-- Height of a tree: leaves (and empty slots) have height 0. -/
def height : PTaptree → Nat
  | .empty => 0
  | .leaf _ _ => 0
  | .branch l r => max (height l) (height r) + 1

/-- A tree contains an empty (undefined) slot. -/
def containsEmpty : PTaptree → Bool
  | .empty => true
  | .leaf _ _ => false
  | .branch l r => containsEmpty l || containsEmpty r

/-- Every leaf version of the tree is explicitly set and nonzero, so
that the JavaScript default `version || LEAF_VERSION_TAPSCRIPT` does not
rewrite it. -/
def allGoodVer : PTaptree → Bool
  | .empty => true
  | .leaf _ v => match v with | some n => decide (n ≠ 0) | none => false
  | .branch l r => allGoodVer l && allGoodVer r

/-- A full left-leaning chain of taptrees of height `n` (every right
child a leaf), used as a concrete deep tree. -/
def deepT : Nat → PTaptree
  | 0 => .leaf [] (some 192)
  | n + 1 => .branch (deepT n) (.leaf [] (some 192))

/-- A left-leaning chain with empty right slots of height `n`: the tree
built by inserting a single leaf of depth `n` (for `n > 0`). -/
def leftChainEmpty : Nat → PTaptree
  | 0 => .leaf [] (some 192)
  | n + 1 => .branch (leftChainEmpty n) .empty

/-- The states the insertion loop walks through while rebuilding a full
tree `t` from its depth-first leaf list: `PreRem p t d rem` says the
nonempty tree `p` holds a depth-first prefix of `t`'s leaves (at depth
offset `d`) and the leaves of `rem` are still to be inserted. -/
inductive PreRem : PTaptree → PTaptree → Nat → List TapLeaf → Prop
  | leafc (s : Bytes) (v : Option Nat) (d : Nat) :
      PreRem (.leaf s v) (.leaf s v) d []
  | left {pl l : PTaptree} (r : PTaptree) {d : Nat} {rem : List TapLeaf} :
      PreRem pl l (d + 1) rem →
      PreRem (.branch pl .empty) (.branch l r) d (rem ++ dfsP r (d + 1))
  | right (l : PTaptree) {pr r : PTaptree} {d : Nat} {rem : List TapLeaf} :
      PreRem pr r (d + 1) rem →
      PreRem (.branch l pr) (.branch l r) d rem

/-- One `tapLeafScript` entry of a PSBT input (`TapLeafScript` of
`bip174`). -/
structure TapLeafScript where
  leafVersion : Nat
  script : Bytes
  controlBlock : Bytes
deriving DecidableEq, Repr

/-- One `tapScriptSig` entry of a PSBT input (`TapScriptSig` of
`bip174`). -/
structure TapScriptSig where
  pubkey : Bytes
  signature : Bytes
  leafHash : Bytes
deriving DecidableEq, Repr

/-- The `tapTree` field of a PSBT output (`TapTree` of `bip174`): a flat
leaf list. -/
structure TapTreeField where
  leaves : List TapLeaf
deriving DecidableEq, Repr

/-- The fields of a PSBT input that this module reads.  Optional byte
fields become `Option Bytes`; the `bip32Derivation` arrays, of which
only (non-)emptiness is observed, are carried as entry counts. -/
structure PsbtInput where
  tapInternalKey : Option Bytes := none
  tapMerkleRoot : Option Bytes := none
  tapLeafScript : List TapLeafScript := []
  tapScriptSig : List TapScriptSig := []
  tapBip32Derivation : Nat := 0
  bip32Derivation : Nat := 0
  redeemScript : Option Bytes := none
  witnessScript : Option Bytes := none
  witnessUtxo : Option Bytes := none
  tapKeySig : Option Bytes := none
  finalScriptWitness : Option Bytes := none
deriving DecidableEq, Repr

/-- The fields of a PSBT output that this module reads; `script` is the
already-set scriptPubKey the source reads as `(outputData as any).script`. -/
structure PsbtOutput where
  tapInternalKey : Option Bytes := none
  tapTree : Option TapTreeField := none
  tapBip32Derivation : Nat := 0
  bip32Derivation : Nat := 0
  redeemScript : Option Bytes := none
  witnessScript : Option Bytes := none
  script : Option Bytes := none
deriving DecidableEq, Repr

/-- The external collaborators imported by the module, opaque here:
`tapleafHash` (applied to a script and a leaf version),
`rootHashFromPath`, `pubkeyPositionInScript`,
`witnessStackToScriptWitness`, the `p2tr` payment's output script (its
`scriptTree` argument takes `.empty` for `undefined`), and `isP2TR`.
They are modelled as total functions. -/
structure Prims where
  tapleafHash : Bytes → Nat → Bytes
  rootHashFromPath : Bytes → Bytes → Bytes
  pubkeyPositionInScript : Bytes → Bytes → Int
  witnessStackToScriptWitness : List Bytes → Bytes
  p2trOutput : Bytes → PTaptree → Bytes
  isP2TR : Bytes → Bool

/-- `isTaprootInput(input)` of the source. -/
def isTaprootInput (pr : Prims) (i : PsbtInput) : Bool :=
  i.tapInternalKey.isSome || i.tapMerkleRoot.isSome ||
    !i.tapLeafScript.isEmpty || (i.tapBip32Derivation != 0) ||
    (match i.witnessUtxo with
     | some s => pr.isP2TR s
     | none => false)

/-- `isTaprootOutput(output, script?)` of the source. -/
def isTaprootOutput (pr : Prims) (o : PsbtOutput) (script : Option Bytes) : Bool :=
  o.tapInternalKey.isSome || o.tapTree.isSome || (o.tapBip32Derivation != 0) ||
    (match script with
     | some s => pr.isP2TR s
     | none => false)

/-- `hasNonTaprootFields(io)` of the source, at input type. -/
def hasNonTaprootFieldsIn (i : PsbtInput) : Bool :=
  i.redeemScript.isSome || i.witnessScript.isSome || (i.bip32Derivation != 0)

/-- `hasNonTaprootFields(io)` of the source, at output type. -/
def hasNonTaprootFieldsOut (o : PsbtOutput) : Bool :=
  o.redeemScript.isSome || o.witnessScript.isSome || (o.bip32Derivation != 0)

/-- `checkMixedTaprootAndNonTaprootInputFields(inputData, newInputData,
action)`.  The reference equality `inputData === newInputData` of the
third disjunct is modelled as value equality. -/
def checkMixedTaprootAndNonTaprootInputFields
    (pr : Prims) (old new : PsbtInput) (action : String) : Except Err Unit :=
  let isBadTaprootUpdate := isTaprootInput pr old && hasNonTaprootFieldsIn new
  let isBadNonTaprootUpdate := hasNonTaprootFieldsIn old && isTaprootInput pr new
  let hasMixedFields := old == new && isTaprootInput pr new && hasNonTaprootFieldsIn new
  if isBadTaprootUpdate || isBadNonTaprootUpdate || hasMixedFields then
    .error (.mixedFields action)
  else .ok ()

/-- `checkMixedTaprootAndNonTaprootOutputFields(...)`. -/
def checkMixedTaprootAndNonTaprootOutputFields
    (pr : Prims) (old new : PsbtOutput) (action : String) : Except Err Unit :=
  let isBadTaprootUpdate := isTaprootOutput pr old none && hasNonTaprootFieldsOut new
  let isBadNonTaprootUpdate := hasNonTaprootFieldsOut old && isTaprootOutput pr new none
  let hasMixedFields := old == new && isTaprootOutput pr new none && hasNonTaprootFieldsOut new
  if isBadTaprootUpdate || isBadNonTaprootUpdate || hasMixedFields then
    .error (.mixedFields action)
  else .ok ()

/-- `isTapLeafInTree(tapLeaf, merkleRoot?)`: vacuously true without a
root, otherwise the control-block path must reproduce the root. -/
def isTapLeafInTree (pr : Prims) (tapLeaf : TapLeafScript) (merkleRoot : Option Bytes) : Bool :=
  match merkleRoot with
  | none => true
  | some root =>
    pr.rootHashFromPath tapLeaf.controlBlock
        (pr.tapleafHash tapLeaf.script tapLeaf.leafVersion) == root

/-- `checkIfTapLeafInTree(inputData, newInputData, action)`.  When the
new input carries a Merkle root, the leaf scripts of both inputs are
checked against it; when only the old input carries one, only the new
input's leaf scripts are checked. -/
def checkIfTapLeafInTree (pr : Prims) (old new : PsbtInput) (action : String) : Except Err Unit :=
  if new.tapMerkleRoot.isSome then
    let newLeafsInTree := new.tapLeafScript.all (fun l => isTapLeafInTree pr l new.tapMerkleRoot)
    let oldLeafsInTree := old.tapLeafScript.all (fun l => isTapLeafInTree pr l new.tapMerkleRoot)
    if !newLeafsInTree || !oldLeafsInTree then .error (.leafNotInTree action) else .ok ()
  else if old.tapMerkleRoot.isSome then
    let newLeafsInTree := new.tapLeafScript.all (fun l => isTapLeafInTree pr l old.tapMerkleRoot)
    if !newLeafsInTree then .error (.leafNotInTree action) else .ok ()
  else .ok ()

/-- `checkTaprootInputFields(inputData, newInputData, action)`. -/
def checkTaprootInputFields (pr : Prims) (old new : PsbtInput) (action : String) : Except Err Unit :=
  match checkMixedTaprootAndNonTaprootInputFields pr old new action with
  | .error e => .error e
  | .ok _ => checkIfTapLeafInTree pr old new action

/-- `getTaprootScripPubkey(tapInternalKey, tapTree?)` [sic]: build the
expected taproot scriptPubKey; a present `tapTree` is first decoded by
`tapTreeFromList` (whose failures propagate), and `.empty` stands for
the `undefined` script tree. -/
def getTaprootScripPubkey (pr : Prims) (tapInternalKey : Bytes) (tapTree : Option TapTreeField) :
    Except Err Bytes :=
  match tapTree with
  | none => .ok (pr.p2trOutput tapInternalKey .empty)
  | some t =>
    match tapTreeFromList t.leaves with
    | .error e => .error e
    | .ok tree => .ok (pr.p2trOutput tapInternalKey tree)

/-- The JavaScript expression `a || b` for two optional object values:
a present (truthy) `a` wins. -/
def jsOrO {α : Type} (a b : Option α) : Option α :=
  match a with
  | some x => some x
  | none => b

/-- `checkTaprootScriptPubkey(outputData, newOutputData)`: nothing is
checked unless the new output carries a `tapTree` or `tapInternalKey`;
the merged key and tree (new overriding old) then rebuild the expected
script, compared against the old output's `script` when that is set. -/
def checkTaprootScriptPubkey (pr : Prims) (old new : PsbtOutput) : Except Err Unit :=
  if new.tapTree.isNone && new.tapInternalKey.isNone then .ok ()
  else
    let tapInternalKey := jsOrO new.tapInternalKey old.tapInternalKey
    let tapTree := jsOrO new.tapTree old.tapTree
    match tapInternalKey with
    | none => .ok ()
    | some k =>
      match getTaprootScripPubkey pr k tapTree with
      | .error e => .error e
      | .ok script =>
        match old.script with
        | some scriptPubkey => if script == scriptPubkey then .ok () else .error .scriptMismatch
        | none => .ok ()

/-- `checkTaprootOutputFields(outputData, newOutputData, action)`. -/
def checkTaprootOutputFields (pr : Prims) (old new : PsbtOutput) (action : String) : Except Err Unit :=
  match checkMixedTaprootAndNonTaprootOutputFields pr old new action with
  | .error e => .error e
  | .ok _ => checkTaprootScriptPubkey pr old new

/-- Ordering used by `findTapLeafToFinalize`'s comparator
`(a, b) => a.controlBlock.length - b.controlBlock.length`. -/
def cbLe (a b : TapLeafScript) : Prop :=
  a.controlBlock.length ≤ b.controlBlock.length

instance : DecidableRel cbLe := fun x y => Nat.decLe x.controlBlock.length y.controlBlock.length

instance : IsTotal TapLeafScript cbLe :=
  ⟨fun a b => Nat.le_total a.controlBlock.length b.controlBlock.length⟩

instance : IsTrans TapLeafScript cbLe :=
  ⟨fun _ _ _ h1 h2 => Nat.le_trans h1 h2⟩

/-- The JavaScript `Array.prototype.sort` is a stable sort (its result
is determined by the comparator's total preorder and the input order),
so it is embedded as Mathlib's stable `insertionSort`. -/
def sortLeavesByCB (l : List TapLeafScript) : List TapLeafScript :=
  List.insertionSort cbLe l

/-- `canFinalizeLeaf(leaf, tapScriptSig, hash?)`. -/
def canFinalizeLeaf (pr : Prims) (leaf : TapLeafScript) (tapScriptSig : List TapScriptSig)
    (hash : Option Bytes) : Bool :=
  let leafHash := pr.tapleafHash leaf.script leaf.leafVersion
  let whiteListedHash := match hash with
    | none => true
    | some h => leafHash == h
  whiteListedHash && tapScriptSig.any (fun tss => tss.leafHash == leafHash)

/-- `findTapLeafToFinalize(input, inputIndex, leafHashToFinalize?)`,
with the state of the input after the call as second component: the
source sorts `input.tapLeafScript` IN PLACE (JavaScript
`Array.prototype.sort` mutates), so when the signature check passes the
caller's array is left reordered. -/
def findTapLeafToFinalizeSt (pr : Prims) (input : PsbtInput) (inputIndex : Nat)
    (leafHashToFinalize : Option Bytes) : Except Err TapLeafScript × PsbtInput :=
  if input.tapScriptSig.isEmpty then (.error (.noScriptSig inputIndex), input)
  else
    let sorted := sortLeavesByCB input.tapLeafScript
    let res : Except Err TapLeafScript :=
      match sorted.find? (fun leaf => canFinalizeLeaf pr leaf input.tapScriptSig leafHashToFinalize) with
      | some leaf => .ok leaf
      | none => .error (.noMatchingLeaf inputIndex)
    (res, { input with tapLeafScript := sorted })

/-- The return value of `findTapLeafToFinalize`. -/
def findTapLeafToFinalize (pr : Prims) (input : PsbtInput) (inputIndex : Nat)
    (leafHashToFinalize : Option Bytes) : Except Err TapLeafScript :=
  (findTapLeafToFinalizeSt pr input inputIndex leafHashToFinalize).1

/-- `addPubkeyPositionInScript(script, tss)`: pair a signature record
with its pubkey's position in the leaf script (the source's
`Object.assign` of a `positionInScript` field). -/
def addPubkeyPositionInScript (pr : Prims) (script : Bytes) (tss : TapScriptSig) :
    TapScriptSig × Int :=
  (tss, pr.pubkeyPositionInScript tss.pubkey script)

/-- Ordering used by `sortSignatures`'s comparator
`(t1, t2) => t2.positionInScript - t1.positionInScript` (descending by
position). -/
def posGe (a b : TapScriptSig × Int) : Prop := b.2 ≤ a.2

instance : DecidableRel posGe := fun x y => Int.decLe y.2 x.2

instance : IsTotal (TapScriptSig × Int) posGe := ⟨fun a b => Int.le_total b.2 a.2⟩

instance : IsTrans (TapScriptSig × Int) posGe :=
  ⟨fun _ _ _ h1 h2 => Int.le_trans h2 h1⟩

/-- `sortSignatures(input, tapLeaf)`: keep the signatures whose
`leafHash` matches the leaf's computed hash, sorted descending by the
pubkey's position in the leaf script (stable, see `sortLeavesByCB`). -/
def sortSignatures (pr : Prims) (input : PsbtInput) (tapLeaf : TapLeafScript) : List Bytes :=
  let leafHash := pr.tapleafHash tapLeaf.script tapLeaf.leafVersion
  ((List.insertionSort posGe
      ((input.tapScriptSig.filter (fun tss => tss.leafHash == leafHash)).map
        (addPubkeyPositionInScript pr tapLeaf.script)))).map
    (fun t => t.1.signature)

/-- `tapScriptFinalizer(inputIndex, input, tapLeafHashToFinalize?)`:
select the leaf, order the signatures, and serialize the stack
`[...sigs, leaf.script, leaf.controlBlock]`.  The primitives are total
here, so the source's try/catch wrapper never fires in the model. -/
def tapScriptFinalizer (pr : Prims) (inputIndex : Nat) (input : PsbtInput)
    (tapLeafHashToFinalize : Option Bytes) : Except Err Bytes :=
  match findTapLeafToFinalize pr input inputIndex tapLeafHashToFinalize with
  | .error e => .error e
  | .ok tapLeaf =>
    .ok (pr.witnessStackToScriptWitness
      (sortSignatures pr input tapLeaf ++ [tapLeaf.script, tapLeaf.controlBlock]))

/-- Concrete primitives used for the closed counterexamples and
witnesses: simple injective byte games standing in for the opaque
collaborators. -/
def cprims : Prims where
  tapleafHash := fun s v => v :: s
  rootHashFromPath := fun cb lh => cb ++ lh
  pubkeyPositionInScript := fun pk _ => (pk.headD 0 : Int)
  witnessStackToScriptWitness := fun stack => stack.length :: stack.flatten
  p2trOutput := fun k tree => 81 :: 32 :: (k ++ [if containsEmpty tree then 0 else 1])
  isP2TR := fun s => s.headD 0 == 81

/-- The qualification predicate of the spec's `findLeafToFinalize`: (a)
when a target hash is given the leaf's computed hash equals it, and (b)
some `tapScriptSig` entry's `leafHash` equals the computed hash. -/
def qualifiesForFinalize (pr : Prims) (input : PsbtInput) (target : Option Bytes)
    (leaf : TapLeafScript) : Prop :=
  (∀ h, target = some h → pr.tapleafHash leaf.script leaf.leafVersion = h) ∧
  ∃ tss ∈ input.tapScriptSig, tss.leafHash = pr.tapleafHash leaf.script leaf.leafVersion

/-- Concrete leaf script with a short (one-byte) control block. -/
def exLeafShort : TapLeafScript := { leafVersion := 192, script := [10], controlBlock := [1] }

/-- Concrete leaf script with a longer (two-byte) control block. -/
def exLeafLong : TapLeafScript := { leafVersion := 192, script := [20], controlBlock := [2, 3] }

/-- A signature for `exLeafShort` under `cprims` whose pubkey sits at
position 5 of the script. -/
def exSigA : TapScriptSig := { pubkey := [5], signature := [100], leafHash := [192, 10] }

/-- A signature for `exLeafShort` under `cprims` whose pubkey sits at
position 40 of the script. -/
def exSigB : TapScriptSig := { pubkey := [40], signature := [200], leafHash := [192, 10] }

/-- A signature for `exLeafLong` under `cprims`. -/
def exSigLong : TapScriptSig := { pubkey := [7], signature := [101], leafHash := [192, 20] }

/-- Concrete input whose `tapLeafScript` is NOT ordered by control-block
length, with both leaves signed. -/
def exInputFind : PsbtInput :=
  { tapLeafScript := [exLeafLong, exLeafShort], tapScriptSig := [exSigA, exSigLong] }

/-- Concrete input with a single signed leaf and two matching
signatures at distinct pubkey positions. -/
def exInputFin : PsbtInput :=
  { tapLeafScript := [exLeafShort], tapScriptSig := [exSigA, exSigB] }

/-- Concrete old input whose own leaf script fails the membership check
against its own Merkle root under `cprims`. -/
def exOldRootInput : PsbtInput :=
  { tapMerkleRoot := some [2], tapLeafScript := [exLeafShort] }

/-- Concrete old output carrying an internal key and a scriptPubKey
that does NOT match the reconstructed taproot script under `cprims`. -/
def exOldOutput : PsbtOutput :=
  { tapInternalKey := some [9], script := some [1, 2, 3] }

/-! ## Lemmas about the tree codec -/

theorem isTaptree_branch {l r : PTaptree} (h : isTaptree (.branch l r)) :
    isTaptree l ∧ isTaptree r := by
  simpa [isTaptree] using h

theorem allGoodVer_branch {l r : PTaptree} (h : allGoodVer (.branch l r)) :
    allGoodVer l ∧ allGoodVer r := by
  simpa [allGoodVer] using h

theorem isTaptree_ne_empty {t : PTaptree} (h : isTaptree t) : t ≠ .empty := by
  intro he
  subst he
  simp [isTaptree] at h

theorem dfsP_ne_nil {t : PTaptree} (h : isTaptree t) : ∀ d, dfsP t d ≠ [] := by
  induction t with
  | empty => simp [isTaptree] at h
  | leaf s v => intro d; simp [dfsP]
  | branch l r ihl ihr =>
    intro d
    have hl := (isTaptree_branch h).1
    simp [dfsP, ihl hl (d + 1)]

theorem dfsP_depth_le {t : PTaptree} : ∀ {d : Nat} {x : TapLeaf}, x ∈ dfsP t d → d ≤ x.depth := by
  induction t with
  | empty => intro d x hx; simp [dfsP] at hx
  | leaf s v =>
    intro d x hx
    simp [dfsP] at hx
    subst hx
    exact Nat.le_refl d
  | branch l r ihl ihr =>
    intro d x hx
    rcases List.mem_append.mp (by simpa [dfsP] using hx) with h | h
    · exact Nat.le_of_succ_le (ihl h)
    · exact Nat.le_of_succ_le (ihr h)

theorem preRem_depth_lt {p t : PTaptree} {d : Nat} {rem : List TapLeaf}
    (h : PreRem p t d rem) : ∀ x ∈ rem, d < x.depth := by
  induction h with
  | leafc s v d => intro x hx; simp at hx
  | left r hpl ih =>
    intro x hx
    rcases List.mem_append.mp hx with h1 | h1
    · exact Nat.lt_of_succ_lt (ih x h1)
    · exact Nat.lt_of_succ_le (dfsP_depth_le h1)
  | right l hpr ih =>
    intro x hx
    exact Nat.lt_of_succ_lt (ih x hx)

theorem preRem_complete {p t : PTaptree} {d : Nat}
    (ht : isTaptree t) (h : PreRem p t d []) : p = t := by
  generalize hrem : ([] : List TapLeaf) = rem at h
  induction h with
  | leafc s v d => rfl
  | left r hpl ih =>
    exfalso
    have hr := (isTaptree_branch ht).2
    have := List.append_eq_nil.mp hrem.symm
    exact dfsP_ne_nil hr _ this.2
  | right l hpr ih =>
    have hr := (isTaptree_branch ht).2
    rw [ih hr hrem]

theorem insert_full_none (lf : TapLeaf) :
    ∀ (t : PTaptree) (f d : Nat), isTaptree t → height t < f →
      instertLeafInTreeAux lf f t d = .ok none := by
  intro t
  induction t with
  | empty => intro f d ht; simp [isTaptree] at ht
  | leaf s v =>
    intro f d _ hf
    obtain ⟨f', rfl⟩ : ∃ f', f = f' + 1 := ⟨f - 1, by omega⟩
    by_cases hd : lf.depth = d <;> simp [instertLeafInTreeAux, hd, isTapleafM]
  | branch l r ihl ihr =>
    intro f d ht hf
    obtain ⟨hl, hr⟩ := isTaptree_branch ht
    obtain ⟨f', rfl⟩ : ∃ f', f = f' + 1 := ⟨f - 1, by omega⟩
    have hfl : height l < f' := by simp [height] at hf; omega
    have hfr : height r < f' := by simp [height] at hf; omega
    by_cases hd : lf.depth = d
    · simp [instertLeafInTreeAux, hd]
    · simp [instertLeafInTreeAux, hd, isTapleafM, PTaptree.left, PTaptree.right,
        ihl f' (d + 1) hl hfl, ihr f' (d + 1) hr hfr]

theorem step_empty (lf : TapLeaf) :
    ∀ (t : PTaptree) (f d : Nat) (rest : List TapLeaf),
      isTaptree t → allGoodVer t → height t < f → dfsP t d = lf :: rest →
      ∃ p, instertLeafInTreeAux lf f .empty d = .ok (some p) ∧ PreRem p t d rest := by
  intro t
  induction t with
  | empty => intro f d rest ht; simp [isTaptree] at ht
  | leaf s v =>
    intro f d rest _ hg hf hdfs
    obtain ⟨f', rfl⟩ : ∃ f', f = f' + 1 := ⟨f - 1, by omega⟩
    simp [dfsP] at hdfs
    obtain ⟨hlf, hrest⟩ := hdfs
    obtain ⟨n, hn, hn0⟩ : ∃ n, v = some n ∧ n ≠ 0 := by
      cases v with
      | none => simp [allGoodVer] at hg
      | some n => exact ⟨n, rfl, by simpa [allGoodVer] using hg⟩
    refine ⟨.leaf s v, ?_, ?_⟩
    · have hdep : lf.depth = d := by rw [← hlf]
      have hscr : lf.script = s := by rw [← hlf]
      have hver : lf.leafVersion = n := by rw [← hlf]; simp [jsOrD, hn, hn0]
      simp [instertLeafInTreeAux, hdep, hscr, hver, hn]
    · rw [hrest]
      exact PreRem.leafc s v d
  | branch l r ihl ihr =>
    intro f d rest ht hg hf hdfs
    obtain ⟨hl, hr⟩ := isTaptree_branch ht
    obtain ⟨hgl, hgr⟩ := allGoodVer_branch hg
    obtain ⟨f', rfl⟩ : ∃ f', f = f' + 1 := ⟨f - 1, by omega⟩
    have hfl : height l < f' := by simp [height] at hf; omega
    simp only [dfsP] at hdfs
    obtain ⟨restl, hdl, hrest⟩ : ∃ restl, dfsP l (d + 1) = lf :: restl ∧
        rest = restl ++ dfsP r (d + 1) := by
      cases hcase : dfsP l (d + 1) with
      | nil => exact absurd hcase (dfsP_ne_nil hl (d + 1))
      | cons a as =>
        rw [hcase] at hdfs
        simp at hdfs
        exact ⟨as, by rw [hdfs.1], hdfs.2.symm⟩
    have hdep : lf.depth ≠ d := by
      have : d + 1 ≤ lf.depth := dfsP_depth_le (by rw [hdl]; exact List.mem_cons_self _ _)
      omega
    obtain ⟨pl, hins, hpre⟩ := ihl f' (d + 1) restl hl hgl hfl hdl
    refine ⟨.branch pl .empty, ?_, ?_⟩
    · simp [instertLeafInTreeAux, hdep, isTapleafM, PTaptree.left, PTaptree.right, hins]
    · rw [hrest]
      exact PreRem.left r hpre

theorem step_pre {p t : PTaptree} {d : Nat} {rem : List TapLeaf}
    (h : PreRem p t d rem) :
    ∀ {f : Nat} {lf : TapLeaf} {rest : List TapLeaf},
      isTaptree t → allGoodVer t → height t < f → rem = lf :: rest →
      ∃ p', instertLeafInTreeAux lf f p d = .ok (some p') ∧ PreRem p' t d rest := by
  induction h with
  | leafc s v d =>
    intro f lf rest _ _ _ hrem
    simp at hrem
  | @left pl l r d reml hpl ih =>
    intro f lf rest ht hg hf hrem
    obtain ⟨hl, hr⟩ := isTaptree_branch ht
    obtain ⟨hgl, hgr⟩ := allGoodVer_branch hg
    obtain ⟨f', rfl⟩ : ∃ f', f = f' + 1 := ⟨f - 1, by omega⟩
    have hfl : height l < f' := by simp [height] at hf; omega
    have hfr : height r < f' := by simp [height] at hf; omega
    have hdep : lf.depth ≠ d := by
      have hmem : lf ∈ reml ++ dfsP r (d + 1) := by rw [hrem]; exact List.mem_cons_self _ _
      rcases List.mem_append.mp hmem with h1 | h1
      · have := preRem_depth_lt hpl lf h1; omega
      · have := dfsP_depth_le h1; omega
    cases reml with
    | nil =>
      have hpleq : pl = l := preRem_complete hl hpl
      subst hpleq
      have hdr : dfsP r (d + 1) = lf :: rest := by simpa using hrem
      obtain ⟨pr', hins, hpre⟩ := step_empty lf r f' (d + 1) rest hr hgr hfr hdr
      refine ⟨.branch pl pr', ?_, PreRem.right pl hpre⟩
      have hnone : instertLeafInTreeAux lf f' pl (d + 1) = .ok none :=
        insert_full_none lf pl f' (d + 1) hl hfl
      simp [instertLeafInTreeAux, hdep, isTapleafM, PTaptree.left, PTaptree.right,
        hnone, hins]
    | cons a as =>
      have ha : a = lf := by
        have := congrArg (fun l => l.head?) hrem
        simpa using this
      have hrest : rest = as ++ dfsP r (d + 1) := by
        have := congrArg (fun l => l.tail) hrem
        simpa using this.symm
      obtain ⟨pl', hins, hpre⟩ := ih hl hgl hfl (by rw [ha])
      refine ⟨.branch pl' .empty, ?_, ?_⟩
      · simp [instertLeafInTreeAux, hdep, isTapleafM, PTaptree.left, PTaptree.right, hins]
      · rw [hrest]
        exact PreRem.left r hpre
  | @right l pr r d reml hpr ih =>
    intro f lf rest ht hg hf hrem
    obtain ⟨hl, hr⟩ := isTaptree_branch ht
    obtain ⟨hgl, hgr⟩ := allGoodVer_branch hg
    obtain ⟨f', rfl⟩ : ∃ f', f = f' + 1 := ⟨f - 1, by omega⟩
    have hfl : height l < f' := by simp [height] at hf; omega
    have hfr : height r < f' := by simp [height] at hf; omega
    have hdep : lf.depth ≠ d := by
      have hmem : lf ∈ reml := by rw [hrem]; exact List.mem_cons_self _ _
      have := preRem_depth_lt hpr lf hmem; omega
    obtain ⟨pr', hins, hpre⟩ := ih hr hgr hfr hrem
    refine ⟨.branch l pr', ?_, PreRem.right l hpre⟩
    have hnone : instertLeafInTreeAux lf f' l (d + 1) = .ok none :=
      insert_full_none lf l f' (d + 1) hl hfl
    simp [instertLeafInTreeAux, hdep, isTapleafM, PTaptree.left, PTaptree.right, hnone, hins]

theorem go_complete :
    ∀ (rem : List TapLeaf) (p t : PTaptree),
      isTaptree t → allGoodVer t → height t ≤ 128 → PreRem p t 0 rem →
      instertLeavesInTreeGo rem p = .ok t := by
  intro rem
  induction rem with
  | nil =>
    intro p t ht _ _ hpre
    rw [instertLeavesInTreeGo, preRem_complete ht hpre]
  | cons lf rest ih =>
    intro p t ht hg hh hpre
    obtain ⟨p', hins, hpre'⟩ :=
      @step_pre p t 0 (lf :: rest) hpre 129 lf rest ht hg (by omega) rfl
    have hwrap : instertLeafInTree lf p 0 = .ok (some p') := by
      simpa [instertLeafInTree] using hins
    rw [instertLeavesInTreeGo, hwrap]
    exact ih p' t ht hg hh hpre'

theorem fromList_dfsP (t : PTaptree)
    (ht : isTaptree t) (hg : allGoodVer t) (hh : height t ≤ 128) :
    tapTreeFromList (dfsP t 0) = .ok t := by
  cases t with
  | empty => simp [isTaptree] at ht
  | leaf s v =>
    obtain ⟨n, hn, hn0⟩ : ∃ n, v = some n ∧ n ≠ 0 := by
      cases v with
      | none => simp [allGoodVer] at hg
      | some n => exact ⟨n, rfl, by simpa [allGoodVer] using hg⟩
    simp [dfsP, tapTreeFromList, jsOrD, hn, hn0]
  | branch l r =>
    obtain ⟨hl, hr⟩ := isTaptree_branch ht
    obtain ⟨a, as, hdl⟩ : ∃ a as, dfsP l 1 = a :: as := by
      cases hcase : dfsP l 1 with
      | nil => exact absurd hcase (dfsP_ne_nil hl 1)
      | cons a as => exact ⟨a, as, rfl⟩
    obtain ⟨b, bs, hdr⟩ : ∃ b bs, dfsP r 1 = b :: bs := by
      cases hcase : dfsP r 1 with
      | nil => exact absurd hcase (dfsP_ne_nil hr 1)
      | cons b bs => exact ⟨b, bs, rfl⟩
    have hshape : dfsP (PTaptree.branch l r) 0 = a :: (as ++ b :: bs) := by
      simp [dfsP, hdl, hdr]
    obtain ⟨p1, hins, hpre⟩ :=
      step_empty a (PTaptree.branch l r) 129 0 (as ++ b :: bs) ht hg (by omega) hshape
    have hfrom : tapTreeFromList (dfsP (PTaptree.branch l r) 0) =
        instertLeavesInTree (dfsP (PTaptree.branch l r) 0) := by
      rw [hshape]
      cases has : as ++ b :: bs with
      | nil => simp at has
      | cons c cs => simp [tapTreeFromList]
    rw [hfrom, hshape, instertLeavesInTree, instertLeavesInTreeGo]
    have hwrap : instertLeafInTree a .empty 0 = .ok (some p1) := by
      simpa [instertLeafInTree] using hins
    rw [hwrap]
    exact go_complete _ p1 _ ht hg hh hpre

theorem toListAux_ok :
    ∀ (t : PTaptree) (acc : List TapLeaf) (d : Nat),
      isTaptree t → d + height t ≤ 128 →
      tapTreeToListAux t acc d = .ok (acc ++ dfsP t d) := by
  intro t
  induction t with
  | empty => intro acc d ht; simp [isTaptree] at ht
  | leaf s v =>
    intro acc d _ hd
    have : ¬ d > MAX_TAPTREE_DEPTH := by simp [MAX_TAPTREE_DEPTH, height] at hd ⊢; omega
    simp [tapTreeToListAux, this, dfsP]
  | branch l r ihl ihr =>
    intro acc d ht hd
    obtain ⟨hl, hr⟩ := isTaptree_branch ht
    have hdl : d + 1 + height l ≤ 128 := by simp [height] at hd; omega
    have hdr : d + 1 + height r ≤ 128 := by simp [height] at hd; omega
    have hcap : ¬ d > MAX_TAPTREE_DEPTH := by
      simp [MAX_TAPTREE_DEPTH, height] at hd ⊢; omega
    simp [tapTreeToListAux, hcap, isTaptree_ne_empty hl, isTaptree_ne_empty hr,
      ihl acc (d + 1) hl hdl, ihr (acc ++ dfsP l (d + 1)) (d + 1) hr hdr, dfsP,
      Bind.bind, Except.bind, Pure.pure, Except.pure]

theorem toList_ok (t : PTaptree) (ht : isTaptree t) (hh : height t ≤ 128) :
    tapTreeToList t = .ok (dfsP t 0) := by
  simpa [tapTreeToList, ht] using toListAux_ok t [] 0 ht (by omega)

theorem toListAux_deep :
    ∀ (t : PTaptree) (acc : List TapLeaf) (d : Nat),
      isTaptree t → 128 < d + height t →
      tapTreeToListAux t acc d = .error .depthExceeded := by
  intro t
  induction t with
  | empty => intro acc d ht; simp [isTaptree] at ht
  | leaf s v =>
    intro acc d _ hd
    have : d > MAX_TAPTREE_DEPTH := by simp [height] at hd; simpa [MAX_TAPTREE_DEPTH]
    simp [tapTreeToListAux, this]
  | branch l r ihl ihr =>
    intro acc d ht hd
    obtain ⟨hl, hr⟩ := isTaptree_branch ht
    by_cases hcap : d > MAX_TAPTREE_DEPTH
    · simp [tapTreeToListAux, hcap]
    · have hd128 : d ≤ 128 := by simpa [MAX_TAPTREE_DEPTH] using hcap
      have hmax : 128 < d + 1 + height l ∨ 128 < d + 1 + height r := by
        simp [height] at hd
        omega
      rcases hmax with hdeep | hdeep
      · simp [tapTreeToListAux, hcap, isTaptree_ne_empty hl, isTaptree_ne_empty hr,
          ihl acc (d + 1) hl hdeep, Bind.bind, Except.bind]
      · by_cases hdl : 128 < d + 1 + height l
        · simp [tapTreeToListAux, hcap, isTaptree_ne_empty hl, isTaptree_ne_empty hr,
            ihl acc (d + 1) hl hdl, Bind.bind, Except.bind]
        · have hok := toListAux_ok l acc (d + 1) hl (by omega)
          simp [tapTreeToListAux, hcap, isTaptree_ne_empty hl, isTaptree_ne_empty hr,
            hok, ihr (acc ++ dfsP l (d + 1)) (d + 1) hr hdeep, Bind.bind, Except.bind]

theorem insert129_not_some {lf : TapLeaf} (h129 : 129 ≤ lf.depth) :
    ∀ (f : Nat) (t : PTaptree) (d : Nat), f + d ≤ 129 →
      ∀ p', instertLeafInTreeAux lf f t d ≠ .ok (some p') := by
  intro f
  induction f with
  | zero => intro t d _ p'; simp [instertLeafInTreeAux]
  | succ f' ih =>
    intro t d hfd p'
    have hdep : lf.depth ≠ d := by omega
    by_cases hleaf : isTapleafM t
    · simp [instertLeafInTreeAux, hdep, hleaf]
    · simp only [instertLeafInTreeAux, if_neg hdep, hleaf, Bool.false_eq_true, if_false]
      cases hcl : instertLeafInTreeAux lf f' t.left (d + 1) with
      | error e => simp
      | ok ol =>
        cases ol with
        | some ls => exact absurd hcl (ih t.left (d + 1) (by omega) ls)
        | none =>
          cases hcr : instertLeafInTreeAux lf f' t.right (d + 1) with
          | error e => simp
          | ok orr =>
            cases orr with
            | some rs => exact absurd hcr (ih t.right (d + 1) (by omega) rs)
            | none => simp

theorem insertAux_error {lf : TapLeaf} :
    ∀ {f : Nat} {t : PTaptree} {d : Nat} {e : Err},
      instertLeafInTreeAux lf f t d = .error e → e = .depthExceeded := by
  intro f
  induction f with
  | zero =>
    intro t d e h
    simpa [instertLeafInTreeAux] using h.symm
  | succ f' ih =>
    intro t d e h
    by_cases hd : lf.depth = d
    · cases t <;> simp [instertLeafInTreeAux, hd] at h
    · by_cases hleaf : isTapleafM t
      · simp [instertLeafInTreeAux, hd, hleaf] at h
      · simp only [instertLeafInTreeAux, if_neg hd, hleaf, Bool.false_eq_true, if_false] at h
        cases hcl : instertLeafInTreeAux lf f' t.left (d + 1) with
        | error e' =>
          rw [hcl] at h
          simp at h
          exact h ▸ ih hcl
        | ok ol =>
          rw [hcl] at h
          cases ol with
          | some ls => simp at h
          | none =>
            simp only at h
            cases hcr : instertLeafInTreeAux lf f' t.right (d + 1) with
            | error e' =>
              rw [hcr] at h
              simp at h
              exact h ▸ ih hcr
            | ok orr =>
              rw [hcr] at h
              cases orr <;> simp at h

theorem go129_rejected :
    ∀ (L : List TapLeaf) (p : PTaptree), (∃ lf ∈ L, lf.depth = 129) →
      ∃ e, instertLeavesInTreeGo L p = .error e := by
  intro L
  induction L with
  | nil => intro p h; simp at h
  | cons lf rest ih =>
    intro p h
    cases hcase : instertLeafInTree lf p 0 with
    | error e => exact ⟨e, by rw [instertLeavesInTreeGo, hcase]⟩
    | ok o =>
      cases o with
      | none => exact ⟨.noRoom, by rw [instertLeavesInTreeGo, hcase]⟩
      | some t' =>
        have hmem : ∃ x ∈ rest, x.depth = 129 := by
          rcases h with ⟨x, hx, hx129⟩
          rcases List.mem_cons.mp hx with hxeq | hxr
          · exfalso
            subst hxeq
            exact @insert129_not_some x (by omega) 129 p 0 (by omega) t'
              (by simpa [instertLeafInTree] using hcase)
          · exact ⟨x, hxr, hx129⟩
        obtain ⟨e, he⟩ := ih t' hmem
        exact ⟨e, by rw [instertLeavesInTreeGo, hcase]; exact he⟩

theorem fromList129_rejected (L : List TapLeaf) (h : ∃ lf ∈ L, lf.depth = 129) :
    ∃ e, tapTreeFromList L = .error e := by
  match L with
  | [lf] =>
    have hd : lf.depth = 129 := by simpa using h
    have : ¬ lf.depth = 0 := by omega
    simpa [tapTreeFromList, this, instertLeavesInTree] using go129_rejected [lf] .empty h
  | [] => simp at h
  | a :: b :: rest =>
    simpa [tapTreeFromList, instertLeavesInTree] using go129_rejected (a :: b :: rest) .empty h

theorem deepT_isTaptree : ∀ n, isTaptree (deepT n) = true := by
  intro n
  induction n with
  | zero => rfl
  | succ n ih => simp [deepT, isTaptree, ih]

theorem deepT_height : ∀ n, height (deepT n) = n := by
  intro n
  induction n with
  | zero => rfl
  | succ n ih => simp [deepT, height, ih]

/-! ## Claim C1 (round-trip of the tree codec) -/

/-- C1, counterexample: the claim fails as stated.  The single-leaf tree
with leaf version explicitly `0` is a valid TapTree (one leaf at depth
0) and is itself the image of `tapTreeFromList` on the well-formed list
`[(depth 0, version 0)]`, yet converting it to a list and back yields a
tree whose leaf version is 192, because `_tapTreeToList` computes
`tree.version || LEAF_VERSION_TAPSCRIPT` and the JavaScript `||` treats
the version `0` as falsy. -/
theorem c1_counterexample :
    tapTreeFromList [⟨0, 0, [42]⟩] = .ok (.leaf [42] (some 0)) ∧
    isTaptree (.leaf [42] (some 0)) = true ∧
    (tapTreeToList (.leaf [42] (some 0))).bind tapTreeFromList = .ok (.leaf [42] (some 192)) ∧
    PTaptree.leaf [42] (some 192) ≠ PTaptree.leaf [42] (some 0) := by
  refine ⟨by decide, by decide, by decide, by decide⟩

/-- C1, amended: for every valid TapTree of height at most 128 all of
whose leaf versions are explicitly set and nonzero, `tapTreeToList`
followed by `tapTreeFromList` reproduces the tree exactly (structure,
leaf scripts and leaf versions); a leaf version that is absent or 0 is
instead rewritten to the default 192 by the round trip. -/
theorem c1_roundtrip_amended (t : PTaptree)
    (ht : isTaptree t = true) (hg : allGoodVer t = true) (hh : height t ≤ 128) :
    (tapTreeToList t).bind tapTreeFromList = .ok t := by
  rw [toList_ok t ht hh]
  simpa [Bind.bind, Except.bind] using fromList_dfsP t ht hg hh

/-- C1, witness: the amended round trip evaluated on a concrete 3-leaf
tree. -/
theorem c1_roundtrip_amended_witness :
    isTaptree (.branch (.branch (.leaf [1] (some 192)) (.leaf [2] (some 10))) (.leaf [3] (some 192))) = true ∧
    allGoodVer (.branch (.branch (.leaf [1] (some 192)) (.leaf [2] (some 10))) (.leaf [3] (some 192))) = true ∧
    height (.branch (.branch (.leaf [1] (some 192)) (.leaf [2] (some 10))) (.leaf [3] (some 192))) ≤ 128 ∧
    (tapTreeToList (.branch (.branch (.leaf [1] (some 192)) (.leaf [2] (some 10))) (.leaf [3] (some 192)))).bind tapTreeFromList
      = .ok (.branch (.branch (.leaf [1] (some 192)) (.leaf [2] (some 10))) (.leaf [3] (some 192))) :=
  ⟨by decide, by decide, by decide,
    c1_roundtrip_amended _ (by decide) (by decide) (by decide)⟩

/-! ## Claim C7 (completeness checking of the list decoder) -/

/-- C7, counterexample: the claim fails as stated.  The list holding a
single leaf of depth 1 leaves the implied sibling position empty, yet
`tapTreeFromList` accepts it and returns a tree with an empty slot
remaining instead of rejecting it with `MalformedTapTree`. -/
theorem c7_counterexample :
    tapTreeFromList [⟨1, 192, [7]⟩] = .ok (.branch (.leaf [7] (some 192)) .empty) ∧
    containsEmpty (.branch (.leaf [7] (some 192)) .empty) = true := by
  refine ⟨by decide, by decide⟩

theorem go_noRoom_iff :
    ∀ (L : List TapLeaf) (p : PTaptree),
      instertLeavesInTreeGo L p = .error .noRoom ↔ someInsertionNoRoom L p = true := by
  intro L
  induction L with
  | nil => intro p; simp [instertLeavesInTreeGo, someInsertionNoRoom]
  | cons lf rest ih =>
    intro p
    cases hc : instertLeafInTree lf p 0 with
    | error e =>
      have he : e = Err.depthExceeded :=
        insertAux_error (by simpa [instertLeafInTree] using hc)
      subst he
      simp [instertLeavesInTreeGo, someInsertionNoRoom, hc]
    | ok o =>
      cases o with
      | none => simp [instertLeavesInTreeGo, someInsertionNoRoom, hc]
      | some t => simp [instertLeavesInTreeGo, someInsertionNoRoom, hc, ih t]

/-- C7, amended: `tapTreeFromList` rejects with `MalformedTapTree`
exactly the lists in which some sequential insertion of the leaves (in
list order, into the growing tree) finds no room — in particular any
two leaves both claiming depth 0 — but it performs no final
completeness check: a list that underfills the positions implied by its
depths (such as a single leaf of depth 1) is accepted and yields a tree
with empty slots remaining. -/
theorem c7_insertion_amended :
    (∀ L : List TapLeaf,
      tapTreeFromList L = .error .noRoom ↔ someInsertionNoRoom L .empty = true) ∧
    (∀ a b : TapLeaf, a.depth = 0 → b.depth = 0 →
      tapTreeFromList [a, b] = .error .noRoom) ∧
    tapTreeFromList [⟨1, 192, [5]⟩] = .ok (.branch (.leaf [5] (some 192)) .empty) ∧
    containsEmpty (.branch (.leaf [5] (some 192)) .empty) = true := by
  refine ⟨?_, ?_, by decide, by decide⟩
  · intro L
    match L with
    | [] =>
      simp [tapTreeFromList, instertLeavesInTree, instertLeavesInTreeGo, someInsertionNoRoom]
    | [lf] =>
      by_cases hd : lf.depth = 0
      · have hins : instertLeafInTree lf .empty 0
            = .ok (some (.leaf lf.script (some lf.leafVersion))) := by
          simp [instertLeafInTree, instertLeafInTreeAux, hd]
        simp [tapTreeFromList, hd, someInsertionNoRoom, hins]
      · have hform : tapTreeFromList [lf] = instertLeavesInTreeGo [lf] .empty := by
          simp [tapTreeFromList, hd, instertLeavesInTree]
        rw [hform]
        exact go_noRoom_iff [lf] .empty
    | a :: b :: rest =>
      have hform : tapTreeFromList (a :: b :: rest)
          = instertLeavesInTreeGo (a :: b :: rest) .empty := by
        simp [tapTreeFromList, instertLeavesInTree]
      rw [hform]
      exact go_noRoom_iff (a :: b :: rest) .empty
  · intro a b ha hb
    simp [tapTreeFromList, instertLeavesInTree, instertLeavesInTreeGo, instertLeafInTree,
      instertLeafInTreeAux, ha, hb]

/-- C7, witness: the amended claim evaluated on concrete inputs — two
depth-0 leaves are rejected with no room, and the general
characterization instantiated at that same shape of list. -/
theorem c7_insertion_amended_witness :
    tapTreeFromList [⟨0, 192, [1]⟩, ⟨0, 192, [2]⟩] = .error .noRoom ∧
    (tapTreeFromList [⟨0, 192, [3]⟩, ⟨0, 192, [4]⟩] = .error .noRoom ↔
      someInsertionNoRoom [⟨0, 192, [3]⟩, ⟨0, 192, [4]⟩] .empty = true) :=
  ⟨c7_insertion_amended.2.1 ⟨0, 192, [1]⟩ ⟨0, 192, [2]⟩ rfl rfl,
    c7_insertion_amended.1 [⟨0, 192, [3]⟩, ⟨0, 192, [4]⟩]⟩

/-! ## Claim C8 (the 128-level depth cap) -/

/-- C8, counterexample: the claim fails as stated.  The list
`[(depth 0), (depth 129)]` contains a leaf of depth 129, but inserting
that leaf finds the tree already occupied at every level it can reach,
so `tapTreeFromList` rejects it with `MalformedTapTree` (no room), not
with `DepthExceeded`. -/
theorem c8_counterexample :
    tapTreeFromList [⟨0, 192, []⟩, ⟨129, 192, []⟩] = .error .noRoom ∧
    Err.noRoom ≠ Err.depthExceeded := by
  refine ⟨by decide, by decide⟩

/-- C8, amended: every list containing a depth-129 leaf is rejected by
`tapTreeFromList`, with `DepthExceeded` when the insertion descends past
depth 128 (for instance a lone depth-129 leaf) but possibly with
`MalformedTapTree` when it runs out of room first; a full tree nested
deeper than 128 levels is rejected by `tapTreeToList` with
`DepthExceeded`; and depth exactly 128 is accepted in both
directions. -/
theorem c8_depth_cap_amended :
    tapTreeFromList [⟨129, 192, []⟩] = .error .depthExceeded ∧
    (∀ t : PTaptree, isTaptree t = true → 128 < height t →
      tapTreeToList t = .error .depthExceeded) ∧
    (∀ L : List TapLeaf, (∃ lf ∈ L, lf.depth = 129) →
      ∃ e, tapTreeFromList L = .error e) ∧
    tapTreeFromList [⟨128, 192, []⟩] = .ok (leftChainEmpty 128) ∧
    tapTreeToList (deepT 128) = .ok (dfsP (deepT 128) 0) := by
  refine ⟨by decide, ?_, fromList129_rejected, by decide, by decide⟩
  intro t ht hdeep
  simp only [tapTreeToList, ht, if_true]
  exact toListAux_deep t [] 0 ht (by omega)

/-- C8, witness: the amended depth-cap facts applied to the concrete
full left chain of height 129 and to the concrete list
`[(depth 0), (depth 129)]`. -/
theorem c8_depth_cap_amended_witness :
    tapTreeToList (deepT 129) = .error .depthExceeded ∧
    ∃ e, tapTreeFromList [⟨0, 192, []⟩, ⟨129, 192, []⟩] = .error e :=
  ⟨c8_depth_cap_amended.2.1 (deepT 129) (deepT_isTaptree 129)
      (by rw [deepT_height]; omega),
    c8_depth_cap_amended.2.2.1 [⟨0, 192, []⟩, ⟨129, 192, []⟩]
      ⟨⟨129, 192, []⟩, by decide, rfl⟩⟩

/-! ## Claim C10 (the empty leaf list) -/

/-- C10: `tapTreeFromList []` (also the omitted-argument default of the
source) returns normally with the `undefined` value — modelled as
`PTaptree.empty`, which is not a taptree — rather than raising any
error. -/
theorem c10_empty_list :
    tapTreeFromList [] = .ok .empty ∧ isTaptree .empty = false := by
  refine ⟨by decide, by decide⟩

/-! ## Lemmas about the finalizer -/

theorem find_first_iff {α : Type} {p : α → Bool} :
    ∀ {l : List α} {a : α}, l.find? p = some a ↔
      ∃ l1 l2, l = l1 ++ a :: l2 ∧ p a = true ∧ ∀ x ∈ l1, p x = false := by
  intro l
  induction l with
  | nil =>
    intro a
    constructor
    · intro h; simp at h
    · rintro ⟨l1, l2, h, -, -⟩
      exact absurd h (by simp)
  | cons b bs ih =>
    intro a
    constructor
    · intro h
      rw [List.find?_cons] at h
      cases hpb : p b with
      | true =>
        rw [hpb] at h
        simp at h
        subst h
        exact ⟨[], bs, rfl, hpb, by simp⟩
      | false =>
        rw [hpb] at h
        simp at h
        obtain ⟨l1, l2, heq, hpa, hall⟩ := ih.mp h
        refine ⟨b :: l1, l2, by rw [heq]; simp, hpa, ?_⟩
        intro x hx
        rcases List.mem_cons.mp hx with rfl | hx'
        · exact hpb
        · exact hall x hx'
    · rintro ⟨l1, l2, heq, hpa, hall⟩
      cases l1 with
      | nil =>
        simp at heq
        obtain ⟨rfl, rfl⟩ := heq
        rw [List.find?_cons, hpa]
      | cons c l1' =>
        simp at heq
        obtain ⟨rfl, heq'⟩ := heq
        have hpb : p b = false := hall b (List.mem_cons_self _ _)
        rw [List.find?_cons, hpb]
        exact ih.mpr ⟨l1', l2, heq', hpa, fun x hx => hall x (List.mem_cons_of_mem _ hx)⟩

theorem canFinalizeLeaf_iff (pr : Prims) (input : PsbtInput) (target : Option Bytes)
    (leaf : TapLeafScript) :
    canFinalizeLeaf pr leaf input.tapScriptSig target = true ↔
      qualifiesForFinalize pr input target leaf := by
  cases target with
  | none => simp [canFinalizeLeaf, qualifiesForFinalize, List.any_eq_true]
  | some h => simp [canFinalizeLeaf, qualifiesForFinalize, List.any_eq_true]

/-! ## Claim C3 (leaf selection for finalization) -/

/-- C3: leaf selection fails with `NoScriptSignature` on an empty
`tapScriptSig`; otherwise the candidate list is a permutation of
`tapLeafScript` sorted ascending by control-block length, the returned
leaf is exactly the first qualifying entry of that list — qualifying
meaning its computed hash matches the target (when given) and some
signature's `leafHash` equals its computed hash — and the search fails
with `NoMatchingLeaf` exactly when no entry qualifies. -/
theorem c3_find_leaf (pr : Prims) (input : PsbtInput) (idx : Nat) (target : Option Bytes) :
    (sortLeavesByCB input.tapLeafScript).Perm input.tapLeafScript ∧
    List.Sorted cbLe (sortLeavesByCB input.tapLeafScript) ∧
    (input.tapScriptSig = [] →
      findTapLeafToFinalize pr input idx target = .error (.noScriptSig idx)) ∧
    (input.tapScriptSig ≠ [] →
      (∀ leaf, findTapLeafToFinalize pr input idx target = .ok leaf ↔
        ∃ l1 l2, sortLeavesByCB input.tapLeafScript = l1 ++ leaf :: l2 ∧
          qualifiesForFinalize pr input target leaf ∧
          ∀ x ∈ l1, ¬ qualifiesForFinalize pr input target x) ∧
      (findTapLeafToFinalize pr input idx target = .error (.noMatchingLeaf idx) ↔
        ∀ leaf ∈ sortLeavesByCB input.tapLeafScript,
          ¬ qualifiesForFinalize pr input target leaf)) := by
  refine ⟨List.perm_insertionSort cbLe input.tapLeafScript,
    List.sorted_insertionSort cbLe input.tapLeafScript, ?_, ?_⟩
  · intro hemp
    simp [findTapLeafToFinalize, findTapLeafToFinalizeSt, hemp]
  · intro hne
    have hemp : input.tapScriptSig.isEmpty = false := by
      cases hc : input.tapScriptSig with
      | nil => exact absurd hc hne
      | cons a as => simp
    have hfind : findTapLeafToFinalize pr input idx target =
        (match (sortLeavesByCB input.tapLeafScript).find?
            (fun leaf => canFinalizeLeaf pr leaf input.tapScriptSig target) with
          | some leaf => Except.ok leaf
          | none => Except.error (.noMatchingLeaf idx)) := by
      simp [findTapLeafToFinalize, findTapLeafToFinalizeSt, hemp]
    constructor
    · intro leaf
      rw [hfind]
      cases hf : (sortLeavesByCB input.tapLeafScript).find?
          (fun leaf => canFinalizeLeaf pr leaf input.tapScriptSig target) with
      | some leaf' =>
        simp only
        constructor
        · intro hok
          have : leaf' = leaf := by simpa using hok
          subst this
          obtain ⟨l1, l2, heq, hq, hall⟩ := find_first_iff.mp hf
          exact ⟨l1, l2, heq, (canFinalizeLeaf_iff pr input target leaf').mp hq,
            fun x hx => by
              have := hall x hx
              rw [← canFinalizeLeaf_iff pr input target x]
              simp [this]⟩
        · rintro ⟨l1, l2, heq, hq, hall⟩
          have : (sortLeavesByCB input.tapLeafScript).find?
              (fun leaf => canFinalizeLeaf pr leaf input.tapScriptSig target) = some leaf := by
            refine find_first_iff.mpr ⟨l1, l2, heq,
              (canFinalizeLeaf_iff pr input target leaf).mpr hq, ?_⟩
            intro x hx
            have := hall x hx
            rw [← canFinalizeLeaf_iff pr input target x] at this
            simpa using this
          rw [hf] at this
          simpa using this
      | none =>
        simp only
        constructor
        · intro h; simp at h
        · rintro ⟨l1, l2, heq, hq, hall⟩
          have := List.find?_eq_none.mp hf leaf (by rw [heq]; simp)
          rw [canFinalizeLeaf_iff pr input target leaf] at this
          exact absurd hq this
    · rw [hfind]
      cases hf : (sortLeavesByCB input.tapLeafScript).find?
          (fun leaf => canFinalizeLeaf pr leaf input.tapScriptSig target) with
      | some leaf' =>
        simp only
        constructor
        · intro h; simp at h
        · intro hall
          have hq := List.find?_some hf
          rw [canFinalizeLeaf_iff pr input target leaf'] at hq
          exact absurd hq (hall leaf' (List.mem_of_find?_eq_some hf))
      | none =>
        simp only
        constructor
        · intro _
          intro leaf hmem
          have := List.find?_eq_none.mp hf leaf hmem
          rw [canFinalizeLeaf_iff pr input target leaf] at this
          exact this
        · intro _; trivial

/-- C3, witness: the empty-signature branch evaluated on a concrete
input, through the claim theorem. -/
theorem c3_find_leaf_witness :
    findTapLeafToFinalize cprims { tapLeafScript := [exLeafShort] } 0 none
      = .error (.noScriptSig 0) :=
  (c3_find_leaf cprims { tapLeafScript := [exLeafShort] } 0 none).2.2.1 rfl

/-! ## Claim C2 (assembly of the finalized witness) -/

/-- C2: whenever a leaf is selected, the finalized witness is the
serialization of the stack made of the signatures whose `leafHash`
matches the leaf's computed hash — ordered descending by their pubkey's
position in the leaf script — followed by the leaf script and the
control block. -/
theorem c2_finalizer (pr : Prims) (idx : Nat) (input : PsbtInput) (target : Option Bytes)
    (leaf : TapLeafScript)
    (h : findTapLeafToFinalize pr input idx target = .ok leaf) :
    ∃ ordered : List (TapScriptSig × Int),
      ordered.Perm ((input.tapScriptSig.filter
          (fun tss => tss.leafHash == pr.tapleafHash leaf.script leaf.leafVersion)).map
          (addPubkeyPositionInScript pr leaf.script)) ∧
      List.Sorted posGe ordered ∧
      (∀ x ∈ ordered, x.2 = pr.pubkeyPositionInScript x.1.pubkey leaf.script) ∧
      tapScriptFinalizer pr idx input target =
        .ok (pr.witnessStackToScriptWitness
          (ordered.map (fun t => t.1.signature) ++ [leaf.script, leaf.controlBlock])) := by
  refine ⟨List.insertionSort posGe ((input.tapScriptSig.filter
      (fun tss => tss.leafHash == pr.tapleafHash leaf.script leaf.leafVersion)).map
      (addPubkeyPositionInScript pr leaf.script)), ?_, ?_, ?_, ?_⟩
  · exact List.perm_insertionSort posGe _
  · exact List.sorted_insertionSort posGe _
  · intro x hx
    have hmem : x ∈ (input.tapScriptSig.filter
        (fun tss => tss.leafHash == pr.tapleafHash leaf.script leaf.leafVersion)).map
        (addPubkeyPositionInScript pr leaf.script) :=
      (List.perm_insertionSort posGe _).subset hx
    obtain ⟨tss, -, rfl⟩ := List.mem_map.mp hmem
    rfl
  · simp [tapScriptFinalizer, h, sortSignatures]

/-- C2, witness: the finalizer evaluated through the claim theorem on a
concrete input with two matching signatures at pubkey positions 5 and
40. -/
theorem c2_finalizer_witness :
    findTapLeafToFinalize cprims exInputFin 0 none = .ok exLeafShort ∧
    ∃ ordered : List (TapScriptSig × Int),
      ordered.Perm ((exInputFin.tapScriptSig.filter
          (fun tss => tss.leafHash == cprims.tapleafHash exLeafShort.script exLeafShort.leafVersion)).map
          (addPubkeyPositionInScript cprims exLeafShort.script)) ∧
      List.Sorted posGe ordered ∧
      (∀ x ∈ ordered, x.2 = cprims.pubkeyPositionInScript x.1.pubkey exLeafShort.script) ∧
      tapScriptFinalizer cprims 0 exInputFin none =
        .ok (cprims.witnessStackToScriptWitness
          (ordered.map (fun t => t.1.signature) ++ [exLeafShort.script, exLeafShort.controlBlock])) :=
  ⟨by decide, c2_finalizer cprims 0 exInputFin none exLeafShort (by decide)⟩

/-! ## Claim C9 (purity of the operations) -/

/-- C9, counterexample: the claim fails as stated.  `findTapLeafToFinalize`
sorts `input.tapLeafScript` in place (JavaScript `Array.prototype.sort`
mutates its receiver), so an input whose leaf scripts are not already
ordered by control-block length comes back reordered. -/
theorem c9_counterexample :
    (findTapLeafToFinalizeSt cprims exInputFind 0 none).2.tapLeafScript
      ≠ exInputFind.tapLeafScript := by
  decide

/-- C9, amended: the operations are pure value functions except that
`findTapLeafToFinalize` (and hence `tapScriptFinalizer`) reorders
`input.tapLeafScript` in place, ascending by control-block length, when
`tapScriptSig` is nonempty; the entries themselves are preserved (the
new order is a permutation) and every other field of the input —
`tapScriptSig` included — is unchanged, whether the call succeeds or
fails. -/
theorem c9_amended (pr : Prims) (input : PsbtInput) (idx : Nat) (target : Option Bytes) :
    ((findTapLeafToFinalizeSt pr input idx target).2.tapLeafScript).Perm input.tapLeafScript ∧
    (findTapLeafToFinalizeSt pr input idx target).2.tapScriptSig = input.tapScriptSig ∧
    (findTapLeafToFinalizeSt pr input idx target).2.tapInternalKey = input.tapInternalKey ∧
    (findTapLeafToFinalizeSt pr input idx target).2.tapMerkleRoot = input.tapMerkleRoot ∧
    (findTapLeafToFinalizeSt pr input idx target).2.tapBip32Derivation = input.tapBip32Derivation ∧
    (findTapLeafToFinalizeSt pr input idx target).2.bip32Derivation = input.bip32Derivation ∧
    (findTapLeafToFinalizeSt pr input idx target).2.redeemScript = input.redeemScript ∧
    (findTapLeafToFinalizeSt pr input idx target).2.witnessScript = input.witnessScript ∧
    (findTapLeafToFinalizeSt pr input idx target).2.witnessUtxo = input.witnessUtxo ∧
    (findTapLeafToFinalizeSt pr input idx target).2.tapKeySig = input.tapKeySig ∧
    (findTapLeafToFinalizeSt pr input idx target).2.finalScriptWitness = input.finalScriptWitness := by
  by_cases hemp : input.tapScriptSig.isEmpty <;>
    simp [findTapLeafToFinalizeSt, hemp, sortLeavesByCB, List.perm_insertionSort]

/-! ## Lemmas about the field checkers -/

theorem hasNonTaprootFieldsIn_iff (i : PsbtInput) :
    hasNonTaprootFieldsIn i = true ↔
      (i.redeemScript ≠ none ∨ i.witnessScript ≠ none ∨ i.bip32Derivation ≠ 0) := by
  simp [hasNonTaprootFieldsIn, Option.isSome_iff_ne_none, or_assoc]

theorem checkIfTapLeafInTree_cases (pr : Prims) (old new : PsbtInput) (action : String) :
    checkIfTapLeafInTree pr old new action = .ok () ∨
    checkIfTapLeafInTree pr old new action = .error (.leafNotInTree action) := by
  by_cases h1 : new.tapMerkleRoot.isSome
  · by_cases h2 : ((!new.tapLeafScript.all fun l => isTapLeafInTree pr l new.tapMerkleRoot) ||
        (!old.tapLeafScript.all fun l => isTapLeafInTree pr l new.tapMerkleRoot)) = true
    · exact Or.inr (by rw [checkIfTapLeafInTree, if_pos h1, if_pos h2])
    · exact Or.inl (by rw [checkIfTapLeafInTree, if_pos h1, if_neg h2])
  · by_cases h3 : old.tapMerkleRoot.isSome
    · by_cases h4 : (!new.tapLeafScript.all fun l => isTapLeafInTree pr l old.tapMerkleRoot) = true
      · exact Or.inr (by rw [checkIfTapLeafInTree, if_neg h1, if_pos h3, if_pos h4])
      · exact Or.inl (by rw [checkIfTapLeafInTree, if_neg h1, if_pos h3, if_neg h4])
    · exact Or.inl (by rw [checkIfTapLeafInTree, if_neg h1, if_neg h3])

theorem checkMixedIn_cases (pr : Prims) (old new : PsbtInput) (action : String) :
    checkMixedTaprootAndNonTaprootInputFields pr old new action = .ok () ∨
    checkMixedTaprootAndNonTaprootInputFields pr old new action = .error (.mixedFields action) := by
  by_cases hC : (isTaprootInput pr old && hasNonTaprootFieldsIn new ||
      hasNonTaprootFieldsIn old && isTaprootInput pr new ||
      old == new && isTaprootInput pr new && hasNonTaprootFieldsIn new) = true
  · exact Or.inr (by rw [checkMixedTaprootAndNonTaprootInputFields, if_pos hC])
  · exact Or.inl (by rw [checkMixedTaprootAndNonTaprootInputFields, if_neg hC])

theorem checkMixedOut_cases (pr : Prims) (old new : PsbtOutput) (action : String) :
    checkMixedTaprootAndNonTaprootOutputFields pr old new action = .ok () ∨
    checkMixedTaprootAndNonTaprootOutputFields pr old new action = .error (.mixedFields action) := by
  by_cases hC : (isTaprootOutput pr old none && hasNonTaprootFieldsOut new ||
      hasNonTaprootFieldsOut old && isTaprootOutput pr new none ||
      old == new && isTaprootOutput pr new none && hasNonTaprootFieldsOut new) = true
  · exact Or.inr (by rw [checkMixedTaprootAndNonTaprootOutputFields, if_pos hC])
  · exact Or.inl (by rw [checkMixedTaprootAndNonTaprootOutputFields, if_neg hC])

theorem go_error :
    ∀ {L : List TapLeaf} {p : PTaptree} {e : Err},
      instertLeavesInTreeGo L p = .error e → e = .noRoom ∨ e = .depthExceeded := by
  intro L
  induction L with
  | nil => intro p e h; simp [instertLeavesInTreeGo] at h
  | cons lf rest ih =>
    intro p e h
    rw [instertLeavesInTreeGo] at h
    cases hc : instertLeafInTree lf p 0 with
    | error e' =>
      rw [hc] at h
      simp at h
      exact Or.inr (h ▸ insertAux_error hc)
    | ok o =>
      rw [hc] at h
      cases o with
      | none => simp at h; exact Or.inl h.symm
      | some t' => exact ih h

theorem fromList_error {L : List TapLeaf} {e : Err}
    (h : tapTreeFromList L = .error e) : e = .noRoom ∨ e = .depthExceeded := by
  match L with
  | [] => exact go_error h
  | [lf] =>
    by_cases hd : lf.depth = 0
    · simp [tapTreeFromList, hd] at h
    · rw [tapTreeFromList, if_neg hd] at h
      exact go_error h
  | a :: b :: rest => exact go_error h

theorem getTaprootScripPubkey_error {pr : Prims} {k : Bytes} {tt : Option TapTreeField} {e : Err}
    (h : getTaprootScripPubkey pr k tt = .error e) : e = .noRoom ∨ e = .depthExceeded := by
  cases tt with
  | none => simp [getTaprootScripPubkey] at h
  | some t =>
    rw [getTaprootScripPubkey] at h
    cases hc : tapTreeFromList t.leaves with
    | error e' =>
      rw [hc] at h
      simp at h
      exact h ▸ fromList_error hc
    | ok tree => rw [hc] at h; simp at h

/-! ## Claim C4 (mutual exclusion of taproot and legacy input fields) -/

/-- C4: `checkTaprootInputFields` fails with `MixedFieldsError` exactly
when the old input is taproot-shaped and the new carries a legacy field
(`redeemScript`, `witnessScript`, or nonempty `bip32Derivation`), or the
old carries a legacy field and the new is taproot-shaped, or old and new
are the same value and it is simultaneously taproot-shaped and
legacy-shaped. -/
theorem c4_mixed_fields_iff (pr : Prims) (old new : PsbtInput) (action : String) :
    checkTaprootInputFields pr old new action = .error (.mixedFields action) ↔
      ((isTaprootInput pr old = true ∧
          (new.redeemScript ≠ none ∨ new.witnessScript ≠ none ∨ new.bip32Derivation ≠ 0)) ∨
        ((old.redeemScript ≠ none ∨ old.witnessScript ≠ none ∨ old.bip32Derivation ≠ 0) ∧
          isTaprootInput pr new = true) ∨
        (old = new ∧ isTaprootInput pr new = true ∧
          (new.redeemScript ≠ none ∨ new.witnessScript ≠ none ∨ new.bip32Derivation ≠ 0))) := by
  have hCiff : (isTaprootInput pr old && hasNonTaprootFieldsIn new ||
      hasNonTaprootFieldsIn old && isTaprootInput pr new ||
      old == new && isTaprootInput pr new && hasNonTaprootFieldsIn new) = true ↔
      ((isTaprootInput pr old = true ∧
          (new.redeemScript ≠ none ∨ new.witnessScript ≠ none ∨ new.bip32Derivation ≠ 0)) ∨
        ((old.redeemScript ≠ none ∨ old.witnessScript ≠ none ∨ old.bip32Derivation ≠ 0) ∧
          isTaprootInput pr new = true) ∨
        (old = new ∧ isTaprootInput pr new = true ∧
          (new.redeemScript ≠ none ∨ new.witnessScript ≠ none ∨ new.bip32Derivation ≠ 0))) := by
    simp [hasNonTaprootFieldsIn_iff, and_assoc, or_assoc]
  constructor
  · intro h
    by_cases hC : (isTaprootInput pr old && hasNonTaprootFieldsIn new ||
        hasNonTaprootFieldsIn old && isTaprootInput pr new ||
        old == new && isTaprootInput pr new && hasNonTaprootFieldsIn new) = true
    · exact hCiff.mp hC
    · exfalso
      have hok : checkMixedTaprootAndNonTaprootInputFields pr old new action = .ok () := by
        rw [checkMixedTaprootAndNonTaprootInputFields, if_neg hC]
      rw [checkTaprootInputFields, hok] at h
      rcases checkIfTapLeafInTree_cases pr old new action with h2 | h2 <;>
        rw [h2] at h <;> simp at h
  · intro hR
    have hC := hCiff.mpr hR
    have herr : checkMixedTaprootAndNonTaprootInputFields pr old new action
        = .error (.mixedFields action) := by
      rw [checkMixedTaprootAndNonTaprootInputFields, if_pos hC]
    rw [checkTaprootInputFields, herr]

/-- C4, witness: a taproot-shaped old input merged with a legacy new
input fails, through the claim theorem. -/
theorem c4_mixed_fields_iff_witness :
    checkTaprootInputFields cprims { tapInternalKey := some [1] } { redeemScript := some [2] }
      "updateInput" = .error (.mixedFields "updateInput") :=
  (c4_mixed_fields_iff cprims { tapInternalKey := some [1] } { redeemScript := some [2] }
    "updateInput").mpr (Or.inl ⟨by decide, Or.inl (by decide)⟩)

/-! ## Claim C5 (leaf membership checking on input merge) -/

theorem checkIfTapLeafInTree_error_iff (pr : Prims) (old new : PsbtInput) (action : String) :
    checkIfTapLeafInTree pr old new action = .error (.leafNotInTree action) ↔
      ((new.tapMerkleRoot.isSome = true ∧
          ¬(new.tapLeafScript.all (fun l => isTapLeafInTree pr l new.tapMerkleRoot) = true ∧
            old.tapLeafScript.all (fun l => isTapLeafInTree pr l new.tapMerkleRoot) = true)) ∨
        (new.tapMerkleRoot = none ∧ old.tapMerkleRoot.isSome = true ∧
          ¬(new.tapLeafScript.all (fun l => isTapLeafInTree pr l old.tapMerkleRoot) = true))) := by
  by_cases h1 : new.tapMerkleRoot.isSome
  · have h1' : ¬ new.tapMerkleRoot = none := by
      cases hc : new.tapMerkleRoot <;> simp_all
    by_cases ha : new.tapLeafScript.all (fun l => isTapLeafInTree pr l new.tapMerkleRoot) = true <;>
      by_cases hb : old.tapLeafScript.all (fun l => isTapLeafInTree pr l new.tapMerkleRoot) = true <;>
        simp [checkIfTapLeafInTree, h1, h1', ha, hb]
  · have h1' : new.tapMerkleRoot = none := by
      cases hc : new.tapMerkleRoot <;> simp_all
    by_cases h3 : old.tapMerkleRoot.isSome
    · by_cases ha : new.tapLeafScript.all (fun l => isTapLeafInTree pr l old.tapMerkleRoot) = true <;>
        simp [checkIfTapLeafInTree, h1, h1', h3, ha]
    · simp [checkIfTapLeafInTree, h1, h1', h3]

/-- C5, counterexample: the claim fails as stated.  The old input
carries a Merkle root and a `tapLeafScript` entry that does NOT pass the
membership check against that root (the only root present), yet
`checkTaprootInputFields` succeeds, because the old-root-only branch of
`checkIfTapLeafInTree` checks only the NEW input's leaf scripts. -/
theorem c5_counterexample :
    checkTaprootInputFields cprims exOldRootInput {} "updateInput" = .ok () ∧
    exOldRootInput.tapMerkleRoot = some [2] ∧
    ({} : PsbtInput).tapMerkleRoot = none ∧
    exOldRootInput.tapLeafScript = [exLeafShort] ∧
    isTapLeafInTree cprims exLeafShort (some [2]) = false := by
  refine ⟨by decide, by decide, by decide, by decide, by decide⟩

/-- C5, amended: after the mixed-fields gate passes,
`checkTaprootInputFields` fails with `LeafNotInTree` exactly when either
the new input carries a Merkle root and not all leaf scripts of BOTH
inputs pass the membership check against it, or the new input carries no
root, the old one does, and not all leaf scripts of the NEW input alone
pass against the old root (the old input's own leaf scripts are not
re-checked in that branch); with neither root present the check
trivially succeeds. -/
theorem c5_leaf_check_amended (pr : Prims) (old new : PsbtInput) (action : String) :
    checkTaprootInputFields pr old new action = .error (.leafNotInTree action) ↔
      (checkMixedTaprootAndNonTaprootInputFields pr old new action = .ok () ∧
        ((new.tapMerkleRoot.isSome = true ∧
            ¬(new.tapLeafScript.all (fun l => isTapLeafInTree pr l new.tapMerkleRoot) = true ∧
              old.tapLeafScript.all (fun l => isTapLeafInTree pr l new.tapMerkleRoot) = true)) ∨
          (new.tapMerkleRoot = none ∧ old.tapMerkleRoot.isSome = true ∧
            ¬(new.tapLeafScript.all (fun l => isTapLeafInTree pr l old.tapMerkleRoot) = true)))) := by
  rcases checkMixedIn_cases pr old new action with hm | hm
  · rw [checkTaprootInputFields, hm]
    rw [checkIfTapLeafInTree_error_iff pr old new action]
    simp [hm]
  · rw [checkTaprootInputFields, hm]
    simp [hm]

/-- C5, witness: a new input carrying a failing leaf and a root is
rejected, through the claim theorem. -/
theorem c5_leaf_check_amended_witness :
    checkTaprootInputFields cprims {} exOldRootInput "updateInput"
      = .error (.leafNotInTree "updateInput") :=
  (c5_leaf_check_amended cprims {} exOldRootInput "updateInput").mpr
    ⟨by decide, Or.inl ⟨by decide, by decide⟩⟩

/-! ## Claim C6 (scriptPubKey consistency on output merge) -/

theorem checkTaprootScriptPubkey_error_iff (pr : Prims) (old new : PsbtOutput) :
    checkTaprootScriptPubkey pr old new = .error .scriptMismatch ↔
      (¬(new.tapTree = none ∧ new.tapInternalKey = none) ∧
        ∃ k, jsOrO new.tapInternalKey old.tapInternalKey = some k ∧
        ∃ sc, getTaprootScripPubkey pr k (jsOrO new.tapTree old.tapTree) = .ok sc ∧
        ∃ spk, old.script = some spk ∧ sc ≠ spk) := by
  by_cases hguard : (new.tapTree.isNone && new.tapInternalKey.isNone) = true
  · have hg' : new.tapTree = none ∧ new.tapInternalKey = none := by
      simpa [Option.isNone_iff_eq_none] using hguard
    simp [checkTaprootScriptPubkey, hguard, hg']
  · have hg' : ¬(new.tapTree = none ∧ new.tapInternalKey = none) := by
      simpa [Option.isNone_iff_eq_none] using hguard
    rw [checkTaprootScriptPubkey, if_neg hguard]
    cases hk : jsOrO new.tapInternalKey old.tapInternalKey with
    | none => simp [hk, hg']
    | some k =>
      simp only [hk]
      cases hgs : getTaprootScripPubkey pr k (jsOrO new.tapTree old.tapTree) with
      | error e =>
        have hne : e ≠ Err.scriptMismatch := by
          rcases getTaprootScripPubkey_error hgs with h | h <;> simp [h]
        simp [hgs, hg', hne]
      | ok sc =>
        cases hs : old.script with
        | none => simp [hgs, hg', hs]
        | some spk =>
          by_cases heq : sc == spk
          · have : sc = spk := by simpa using heq
            simp [hgs, hg', hs, heq, this]
          · have hne : sc ≠ spk := by simpa using heq
            simp [hgs, hg', hs, heq, hne]

/-- C6, counterexample: the claim fails as stated.  The old output
carries `tapInternalKey` and an already-set scriptPubKey that differs
from the reconstructed taproot script, but the new output carries
neither `tapTree` nor `tapInternalKey`, so `checkTaprootOutputFields`
returns early and succeeds even though the merged internal key is
present and the scripts disagree. -/
theorem c6_counterexample :
    checkTaprootOutputFields cprims exOldOutput {} "addOutput" = .ok () ∧
    jsOrO ({} : PsbtOutput).tapInternalKey exOldOutput.tapInternalKey = some [9] ∧
    getTaprootScripPubkey cprims [9] (jsOrO ({} : PsbtOutput).tapTree exOldOutput.tapTree)
      = .ok [81, 32, 9, 0] ∧
    exOldOutput.script = some [1, 2, 3] ∧
    ([81, 32, 9, 0] : Bytes) ≠ [1, 2, 3] := by
  refine ⟨by decide, by decide, by decide, by decide, by decide⟩

/-- C6, amended: after the mixed-fields gate passes,
`checkTaprootOutputFields` fails with `ScriptMismatch` exactly when the
NEW output carries a `tapTree` or `tapInternalKey` (old-only taproot
fields do not trigger the check), the merged internal key (new
overriding old) is present, the reconstruction of the expected taproot
script succeeds, and the old output's already-set script differs from it
byte-wise. -/
theorem c6_script_mismatch_amended (pr : Prims) (old new : PsbtOutput) (action : String) :
    checkTaprootOutputFields pr old new action = .error .scriptMismatch ↔
      (checkMixedTaprootAndNonTaprootOutputFields pr old new action = .ok () ∧
        ¬(new.tapTree = none ∧ new.tapInternalKey = none) ∧
        ∃ k, jsOrO new.tapInternalKey old.tapInternalKey = some k ∧
        ∃ sc, getTaprootScripPubkey pr k (jsOrO new.tapTree old.tapTree) = .ok sc ∧
        ∃ spk, old.script = some spk ∧ sc ≠ spk) := by
  rcases checkMixedOut_cases pr old new action with hm | hm
  · rw [checkTaprootOutputFields, hm]
    rw [checkTaprootScriptPubkey_error_iff pr old new]
    simp [hm]
  · rw [checkTaprootOutputFields, hm]
    simp [hm]

/-- C6, witness: a new output restating the internal key triggers the
mismatch check against the old output's differing script, through the
claim theorem. -/
theorem c6_script_mismatch_amended_witness :
    checkTaprootOutputFields cprims exOldOutput { tapInternalKey := some [9] } "addOutput"
      = .error .scriptMismatch :=
  (c6_script_mismatch_amended cprims exOldOutput { tapInternalKey := some [9] } "addOutput").mpr
    ⟨by decide, by decide, [9], by decide, [81, 32, 9, 0], by decide, [1, 2, 3], by decide, by decide⟩

end Bip371
